import Mathlib

set_option maxHeartbeats 1000000

/-!  Verification of the `runner/common` stop-handling helpers and of the
`llama` decoder model construction/forward code (stop.go of y198nt/ollama),
via a shallow embedding: pure Go functions become Lean functions on lists,
the tensor substrate becomes a deep-embedded expression tree, and the
mutable KV cache becomes an explicit operation log threaded through the
forward pass.  -/

namespace Common

/-- A piece of streamed completion content (`llm.CompletionResponse.Content`),
modelled as its list of characters (Go works on bytes; the embedding is
uniform in the element values). -/
abbrev Piece := List Char

/-- Concatenation of the contents of a list of completion pieces:
the `sequence += resp.Content` accumulation loop of `TruncateStop`. -/
def concatContents : List Piece → Piece
  | [] => []
  | r :: rest => r ++ concatContents rest

/-- Index of the first occurrence of `stop` in a string (Go `strings.Index`);
`none` models the Go result `-1` (no occurrence). -/
def firstIdx (stop : Piece) : Piece → Option Nat
  | [] => if stop.isPrefixOf ([] : Piece) then some 0 else none
  | c :: t => if stop.isPrefixOf (c :: t) then some 0 else (firstIdx stop t).map (· + 1)

/-- The piece-rebuilding loop of `TruncateStop`: walks the input pieces,
keeping for each piece the slice of `truncated` it covers
(`truncated[pos:min(pos+len(resp.Content), len(truncated))]`), recording
whether any piece was cut short, and stopping once `pos` reaches the end
of `truncated`. -/
def truncLoop : List Piece → Piece → Nat → List Piece × Bool
  | [], _, _ => ([], false)
  | r :: rest, truncated, pos =>
    if truncated.length ≤ pos then ([], false)
    else
      let chunk := (truncated.drop pos).take r.length
      let next := truncLoop rest truncated (pos + r.length)
      (if 0 < chunk.length then chunk :: next.1 else next.1,
       (decide (chunk.length < r.length)) || next.2)

/-- `TruncateStop` from stop.go: removes the stop string from the streamed
pieces, returning the partial pieces before the first occurrence of the stop
and a flag for whether the last kept piece was cut mid-piece. -/
def TruncateStop (resps : List Piece) (stop : Piece) : List Piece × Bool :=
  let sequence := concatContents resps
  match firstIdx stop sequence with
  | none => (resps, false)
  | some idx =>
    let truncated := sequence.take idx
    if truncated.length = 0 then ([], true)
    else truncLoop resps truncated 0

/-- Position `idx` falls strictly inside one of the pieces (it is neither a
piece boundary nor 0 nor past the end): the condition under which the
rebuilding loop of `TruncateStop` cuts a piece mid-piece. -/
def strictlyInside : List Piece → Nat → Bool
  | [], _ => false
  | r :: rest, idx =>
    (decide (0 < idx) && decide (idx < r.length)) || strictlyInside rest (idx - r.length)

/-- Rendering of the claim's phrase "some returned piece was cut mid-piece
rather than dropped whole": a returned piece that is a proper prefix of one
of the input pieces. -/
def someReturnedPieceCut (result input : List Piece) : Prop :=
  ∃ c ∈ result, ∃ p ∈ input, c.length < p.length ∧ c = p.take c.length

instance (result input : List Piece) : Decidable (someReturnedPieceCut result input) := by
  unfold someReturnedPieceCut
  infer_instance

/-- Continuation-byte test of `IncompleteUnicode`: `(c & 0xc0) == 0x80`. -/
def isCont (c : Nat) : Bool := c &&& 0xc0 == 0x80

/-- Multi-byte-leader classification of `IncompleteUnicode`: the same mask
tests, in the same order, as the source's if/else chain; `some n` means an
`n`-byte sequence leader. -/
def leadSize (c : Nat) : Option Nat :=
  if c &&& 0xe0 == 0xc0 then some 2
  else if c &&& 0xf0 == 0xe0 then some 3
  else if c &&& 0xf8 == 0xf0 then some 4
  else none

/-- The scanning loop of `IncompleteUnicode`, walking the string backwards
(the list is the reversed token) with `i` the 1-based distance from the end,
skipping continuation bytes and classifying the first non-continuation byte;
the Go loop guard `i < 5` is the `5 ≤ i` early exit. -/
def incompleteLoop : List Nat → Nat → Bool
  | [], _ => false
  | c :: rest, i =>
    if 5 ≤ i then false
    else if isCont c then incompleteLoop rest (i + 1)
    else if c &&& 0xe0 == 0xc0 then decide (i < 2)
    else if c &&& 0xf0 == 0xe0 then decide (i < 3)
    else if c &&& 0xf8 == 0xf0 then decide (i < 4)
    else false

/-- `IncompleteUnicode` from stop.go: whether the token (a byte string,
modelled as its list of byte values) ends in an incomplete UTF-8 sequence. -/
def IncompleteUnicode (token : List Nat) : Bool :=
  incompleteLoop token.reverse 1

/-- Rendering of claim C10's characterisation: the string ends with a proper,
non-empty prefix of a multi-byte UTF-8 sequence, i.e. (reading backwards) `k`
continuation bytes preceded by an `n`-byte leader with `k` strictly fewer
than the `n - 1` continuation bytes the leader requires. -/
def endsWithPartialSeq (token : List Nat) : Prop :=
  ∃ k c n, (token.reverse.take k).all isCont = true ∧
    token.reverse.get? k = some c ∧
    leadSize c = some n ∧ k + 1 < n

end Common

namespace Llama

/-- Symbolic attention scale: the source's `1.0 / math.Sqrt(float64(headDim))`,
kept symbolic (the claims compare which head dimension is supplied to the
attention primitive, not floating-point values). -/
inductive Scale where
  | invSqrt : Nat → Scale
deriving DecidableEq

/-- Deep embedding of the tensor expressions built by the decoder: one
constructor per substrate operation the source invokes (`nn.Linear.Forward`
is `linear weight x`, `Reshape` is `reshape`, `RoPE` is
`rope x positions factors ropeDim ropeType base scale`, `nn.Attention`'s
result is `attention q k v scale`, `Rows` is the row gather, `RMSNorm` is
`rmsnorm weight x eps`, `nn.Embedding.Forward` is `embedding weight ids`).
`nilTensor` models Go's nil `ml.Tensor` (an absent `rope_freqs.weight`);
`leaf` is an opaque externally supplied tensor with an id and a shape. -/
inductive Tensor where
  | nilTensor : Tensor
  | leaf : Nat → List Nat → Tensor
  | linear : Tensor → Tensor → Tensor
  | reshape : Tensor → List Nat → Tensor
  | rope : Tensor → Tensor → Tensor → Nat → Nat → ℚ → ℚ → Tensor
  | attention : Tensor → Tensor → Tensor → Scale → Tensor
  | rows : Tensor → Tensor → Tensor
  | add : Tensor → Tensor → Tensor
  | mul : Tensor → Tensor → Tensor
  | silu : Tensor → Tensor
  | rmsnorm : Tensor → Tensor → ℚ → Tensor
  | embedding : Tensor → Tensor → Tensor
deriving DecidableEq

instance : Inhabited Tensor := ⟨Tensor.nilTensor⟩

/-- Shape bookkeeping of the substrate (`ml.Tensor.Dim`): leaves and reshapes
carry their dimensions; elementwise/norm/rotary/attention operations preserve
their input's shape; matmul-style and gather operations combine them.  The
source consults this only as `hiddenState.Dim(1)` (the batch size) in
`SelfAttention.Forward`. -/
def Tensor.dim : Tensor → Nat → Nat
  | .nilTensor, _ => 0
  | .leaf _ shape, i => shape.getD i 0
  | .linear w x, i => if i = 0 then w.dim 1 else x.dim i
  | .reshape _ ds, i => ds.getD i 0
  | .rope x _ _ _ _ _ _, i => x.dim i
  | .attention q _ _ _, i => q.dim i
  | .rows x idx, i => if i = 1 then idx.dim 0 else x.dim i
  | .add a _, i => a.dim i
  | .mul a _, i => a.dim i
  | .silu x, i => x.dim i
  | .rmsnorm _ x _, i => x.dim i
  | .embedding w x, i => if i = 0 then w.dim 0 else x.dim i

/-- The `Options` hyperparameter bundle of the model (stop.go lines 116–120);
the float32 scalars are carried as rationals, used only pass-through. -/
structure Options where
  hiddenSize : Nat
  numHeads : Nat
  numKVHeads : Nat
  headDim : Nat
  eps : ℚ
  ropeBase : ℚ
  ropeScale : ℚ
  ropeDim : Nat
deriving DecidableEq

/-- One recorded mutation of the causal KV cache. -/
inductive CacheOp where
  | setLayer : Nat → CacheOp
  | put : Tensor → Tensor → CacheOp
deriving DecidableEq

/-- The mutable cache modelled as the log of operations applied to it during
a forward pass. -/
structure CacheState where
  ops : List CacheOp
deriving DecidableEq

/-- Cache mutation: `cache.Put(k, v)` (performed inside `nn.Attention`). -/
def CacheState.put (c : CacheState) (k v : Tensor) : CacheState :=
  ⟨c.ops ++ [CacheOp.put k v]⟩

/-- Cache mutation: `m.Cache.SetLayer(i)`. -/
def CacheState.setLayer (c : CacheState) (i : Nat) : CacheState :=
  ⟨c.ops ++ [CacheOp.setLayer i]⟩

/-- The `SelfAttention` weight bundle (stop.go lines 183–189); `ropeFactors`
is `nilTensor` when `rope_freqs.weight` is absent. -/
structure SelfAttention where
  query : Tensor
  key : Tensor
  value : Tensor
  output : Tensor
  ropeFactors : Tensor
deriving DecidableEq

instance : Inhabited SelfAttention :=
  ⟨⟨Tensor.nilTensor, Tensor.nilTensor, Tensor.nilTensor, Tensor.nilTensor, Tensor.nilTensor⟩⟩

/-- The `MLP` weight bundle (stop.go lines 230–234). -/
structure MLP where
  up : Tensor
  down : Tensor
  gate : Tensor
deriving DecidableEq

instance : Inhabited MLP := ⟨⟨Tensor.nilTensor, Tensor.nilTensor, Tensor.nilTensor⟩⟩

/-- One decoder `Layer` (stop.go lines 241–246). -/
structure Layer where
  attentionNorm : Tensor
  selfAttention : SelfAttention
  mlpNorm : Tensor
  mlp : MLP
deriving DecidableEq

instance : Inhabited Layer := ⟨⟨Tensor.nilTensor, default, Tensor.nilTensor, default⟩⟩

/-- How the model's cache field was initialised: `uninit` is the Go zero
value, `causalWithModelShift` marks `kvcache.NewCausalCache(m.Shift)` —
a fresh causal cache wired to the model's own `Shift` method. -/
inductive CacheConfig where
  | uninit : CacheConfig
  | causalWithModelShift : CacheConfig
deriving DecidableEq

/-- The `Model` struct (stop.go lines 122–132): embedding, decoder layers,
final norm and output projection weights, options, and the cache wiring. -/
structure Model where
  tokenEmbedding : Tensor
  layers : List Layer
  outputNorm : Tensor
  output : Tensor
  opts : Options
  cache : CacheConfig
deriving DecidableEq

/-- Effective head dimension of `SelfAttention.Forward` (stop.go lines
194–198): the explicit configured value when non-zero, otherwise
`hiddenSize / numHeads`. -/
def effHeadDim (opts : Options) : Nat :=
  if opts.headDim = 0 then opts.hiddenSize / opts.numHeads else opts.headDim

/-- Modelled from the spec: `nn.Attention(ctx, q, k, v, scale, cache)` is not
under src/ — per spec 4.1/4.2 (steps 4–5) it appends the new key/value rows
to the active layer's cache and computes causal grouped-query attention over
the stored sequence, returning the weighted value combination. -/
def nnAttention (q k v : Tensor) (s : Scale) (cache : CacheState) :
    Tensor × CacheState :=
  (Tensor.attention q k v s, cache.put k v)

/-- `SelfAttention.Forward` (stop.go lines 191–224), translated operation by
operation: Q/K/V projections, reshapes, rotary encoding of q and k with
rotary type flag 0, attention at scale `1/sqrt(headDim)`, flattening reshape
and output projection. -/
def SelfAttention.Forward (sa : SelfAttention) (hiddenState positionIDs : Tensor)
    (cache : CacheState) (opts : Options) : Tensor × CacheState :=
  let batchSize := hiddenState.dim 1
  let ropeType : Nat := 0
  let headDim := effHeadDim opts
  let q := Tensor.linear sa.query hiddenState
  let q := Tensor.reshape q [headDim, opts.numHeads, batchSize]
  let q := Tensor.rope q positionIDs sa.ropeFactors opts.ropeDim ropeType
    opts.ropeBase opts.ropeScale
  let k := Tensor.linear sa.key hiddenState
  let k := Tensor.reshape k [headDim, opts.numKVHeads, batchSize]
  let k := Tensor.rope k positionIDs sa.ropeFactors opts.ropeDim ropeType
    opts.ropeBase opts.ropeScale
  let v := Tensor.linear sa.value hiddenState
  let v := Tensor.reshape v [headDim, opts.numKVHeads, batchSize]
  let scaleFactor := Scale.invSqrt headDim
  let r := nnAttention q k v scaleFactor cache
  let outputDim := headDim * opts.numHeads
  let kqv := Tensor.reshape r.1 [outputDim, batchSize]
  (Tensor.linear sa.output kqv, r.2)

/-- `Model.Shift` (stop.go lines 226–228), translated argument for argument:
`key.RoPE(ctx, shift, m.Layers[layer].SelfAttention.RopeFactors, uint32(0),
m.ropeDim, m.ropeBase, m.ropeScale)` — in the `RoPE(positions, factors,
ropeDim, ropeType, base, scale)` signature the dimension-count slot receives
the literal 0 and the type-flag slot receives `m.ropeDim`.  (Out-of-range
layer indexing, a Go panic, is modelled by `getD` with a default layer.) -/
def Model.Shift (m : Model) (layer : Nat) (key shift : Tensor) :
    Except String Tensor :=
  Except.ok (Tensor.rope key shift
    (m.layers.getD layer default).selfAttention.ropeFactors
    0 m.opts.ropeDim m.opts.ropeBase m.opts.ropeScale)

/-- `MLP.Forward` (stop.go lines 236–239): the gated linear unit
`down( silu(gate(x)) * up(x) )`; takes no cache and performs no cache
operation. -/
def MLP.Forward (mlp : MLP) (hiddenState : Tensor) (_opts : Options) : Tensor :=
  let h := Tensor.mul (Tensor.silu (Tensor.linear mlp.gate hiddenState))
    (Tensor.linear mlp.up hiddenState)
  Tensor.linear mlp.down h

/-- `Layer.Forward` (stop.go lines 248–267): pre-norm attention with residual,
optional output pruning of both the post-attention hidden state and the
residual when `outputs` is non-nil, then pre-norm feed-forward with
residual. -/
def Layer.Forward (l : Layer) (hiddenState positionIDs : Tensor)
    (outputs : Option Tensor) (cache : CacheState) (opts : Options) :
    Tensor × CacheState :=
  let residual := hiddenState
  let h1 := Tensor.rmsnorm l.attentionNorm hiddenState opts.eps
  let r := l.selfAttention.Forward h1 positionIDs cache opts
  let pruned :=
    match outputs with
    | some o => (Tensor.rows r.1 o, Tensor.rows residual o)
    | none => (r.1, residual)
  let h2 := Tensor.add pruned.1 pruned.2
  let residual2 := h2
  let h3 := Tensor.rmsnorm l.mlpNorm h2 opts.eps
  let h4 := l.mlp.Forward h3 opts
  (Tensor.add h4 residual2, r.2)

/-- The per-iteration outputs selection of `Model.Forward` (stop.go lines
291–294): `lastLayerOutputs` is the outputs tensor exactly on the final
layer index, nil otherwise. -/
def lastLayerOutputs (i numLayers : Nat) (outputsT : Tensor) : Option Tensor :=
  if i = numLayers - 1 then some outputsT else none

/-- The layer loop of `Model.Forward` (stop.go lines 288–297): select the
layer in the cache, compute the layer's outputs selection, run the layer. -/
def forwardLayers (layers : List Layer) (numLayers i : Nat)
    (hs positions outputsT : Tensor) (cache : CacheState) (opts : Options) :
    Tensor × CacheState :=
  match layers with
  | [] => (hs, cache)
  | l :: rest =>
    let cache1 := cache.setLayer i
    let r := l.Forward hs positions (lastLayerOutputs i numLayers outputsT) cache1 opts
    forwardLayers rest numLayers (i + 1) r.1 positions outputsT r.2 opts

/-- The integer sequences of one forward invocation (`input.Options`). -/
structure ForwardOptions where
  inputs : List Int
  positions : List Int
  outputs : List Int
deriving DecidableEq

/-- `Model.Forward` (stop.go lines 269–304), parameterised by the substrate's
fallible integer-to-tensor conversions (`ctx.Input().FromIntSlice` and
`ctx.Output().FromIntSlice`, external to src/): each conversion error is
returned immediately, before the embedding lookup and the layer loop; on
success the embedding, layers, final norm and output projection run. -/
def Model.Forward (m : Model)
    (convIn convOut : List Int → Nat → Except String Tensor)
    (fopts : ForwardOptions) (cache : CacheState) :
    Except String Tensor × CacheState :=
  match convIn fopts.inputs fopts.inputs.length with
  | Except.error e => (Except.error e, cache)
  | Except.ok inputs =>
    match convIn fopts.positions fopts.positions.length with
    | Except.error e => (Except.error e, cache)
    | Except.ok positions =>
      match convOut fopts.outputs fopts.outputs.length with
      | Except.error e => (Except.error e, cache)
      | Except.ok outputsT =>
        let hs := Tensor.embedding m.tokenEmbedding inputs
        let r := forwardLayers m.layers m.layers.length 0 hs positions outputsT
          cache m.opts
        let hs2 := Tensor.rmsnorm m.outputNorm r.1 m.opts.eps
        (Except.ok (Tensor.linear m.output hs2), r.2)

/-- The configuration scalars `New` reads (`ml.Config` accessors, with the
loader's defaults already resolved). -/
structure Config where
  tokenizerModel : String
  blockCount : Nat
  embeddingLength : Nat
  headCount : Nat
  headCountKV : Nat
  keyLength : Nat
  rmsEps : ℚ
  ropeFreqBase : ℚ
  ropeFreqScale : ℚ
  ropeDimCount : Nat
deriving DecidableEq

/-- Case-insensitive string equality (`strings.EqualFold`; ASCII folding
suffices for the `"gpt2"` comparison in `New`). -/
def asciiEqualFold (a b : String) : Bool :=
  a.data.map Char.toLower == b.data.map Char.toLower

/-- `New` (stop.go lines 134–181): rejects any tokenizer family other than
`gpt2` (case-insensitively), otherwise builds the model — `block_count`
zero-valued layers whose weights the loader populates afterwards, the
options bundle from the config scalars, and the cache wired as
`kvcache.NewCausalCache(m.Shift)`.  The `fmt.Printf` logging has no
observable effect on the returned value and is not modelled. -/
def New (c : Config) : Except String Model :=
  if asciiEqualFold c.tokenizerModel "gpt2" = false then
    Except.error ("tokenizer " ++ c.tokenizerModel ++ " not yet supported")
  else
    Except.ok
      { tokenEmbedding := Tensor.nilTensor
        layers := List.replicate c.blockCount default
        outputNorm := Tensor.nilTensor
        output := Tensor.nilTensor
        opts :=
          { hiddenSize := c.embeddingLength
            numHeads := c.headCount
            numKVHeads := c.headCountKV
            headDim := c.keyLength
            eps := c.rmsEps
            ropeBase := c.ropeFreqBase
            ropeScale := c.ropeFreqScale
            ropeDim := c.ropeDimCount }
        cache := CacheConfig.causalWithModelShift }

/-- Projection of the top-level rotary node's (dimension-count, type-flag)
argument pair, used to compare the parameters `Shift` and the live encoder
hand to the rotary primitive. -/
def Tensor.ropeArgs : Tensor → Option (Nat × Nat)
  | .rope _ _ _ d t _ _ => some (d, t)
  | _ => none

/-- Projection: the input of a `linear` node (identity elsewhere). -/
def Tensor.linearArg : Tensor → Tensor
  | .linear _ x => x
  | t => t

/-- Projection: the tensor being reshaped (identity elsewhere). -/
def Tensor.reshapeBase : Tensor → Tensor
  | .reshape x _ => x
  | t => t

/-- Projection: the dimension list of a `reshape` node. -/
def Tensor.reshapeDims : Tensor → List Nat
  | .reshape _ ds => ds
  | _ => []

/-- Projection: the scale of an `attention` node. -/
def Tensor.attnScale : Tensor → Option Scale
  | .attention _ _ _ s => some s
  | _ => none

/-- Projection: the query of an `attention` node. -/
def Tensor.attnQ : Tensor → Option Tensor
  | .attention q _ _ _ => some q
  | _ => none

/-- Projection: the tensor a `rope` node rotates (identity elsewhere). -/
def Tensor.ropeInput : Tensor → Tensor
  | .rope x _ _ _ _ _ _ => x
  | t => t

end Llama

namespace Common

theorem firstIdx_le_length {stop : Piece} :
    ∀ {s : Piece} {idx : Nat}, firstIdx stop s = some idx → idx ≤ s.length := by
  intro s
  induction s with
  | nil =>
    intro idx h
    simp only [firstIdx] at h
    split at h
    · simp only [Option.some.injEq] at h
      omega
    · exact absurd h (by simp)
  | cons c t ih =>
    intro idx h
    simp only [firstIdx] at h
    split at h
    · simp only [Option.some.injEq] at h
      omega
    · rw [Option.map_eq_some'] at h
      obtain ⟨j, hj, rfl⟩ := h
      have := ih hj
      simp only [List.length_cons]
      omega

theorem truncLoop_concat :
    ∀ (resps : List Piece) (truncated : Piece) (pos : Nat),
      truncated.length ≤ pos + (concatContents resps).length →
      concatContents (truncLoop resps truncated pos).1 = truncated.drop pos := by
  intro resps
  induction resps with
  | nil =>
    intro t pos h
    simp only [concatContents, List.length_nil, Nat.add_zero] at h
    simp only [truncLoop, concatContents]
    exact (List.drop_eq_nil_of_le h).symm
  | cons r rest ih =>
    intro t pos h
    simp only [truncLoop]
    split
    · next hle =>
      simp only [concatContents]
      exact (List.drop_eq_nil_of_le hle).symm
    · next hlt =>
      push_neg at hlt
      have hrec : concatContents (truncLoop rest t (pos + r.length)).1 =
          t.drop (pos + r.length) := by
        apply ih
        simp only [concatContents, List.length_append] at h
        omega
      have hsplit : (t.drop pos).take r.length ++ t.drop (pos + r.length) =
          t.drop pos := by
        have : t.drop (pos + r.length) = (t.drop pos).drop r.length := by
          rw [List.drop_drop]
        rw [this, List.take_append_drop]
      split
      · next hchunk =>
        simp only [concatContents, hrec]
        exact hsplit
      · next hchunk =>
        have hz : (t.drop pos).take r.length = [] := by
          apply List.eq_nil_of_length_eq_zero
          omega
        simp only [hrec]
        rw [← hsplit, hz, List.nil_append]

theorem strictlyInside_zero : ∀ (l : List Piece), strictlyInside l 0 = false := by
  intro l
  induction l with
  | nil => rfl
  | cons r rest ih =>
    simp only [strictlyInside, Nat.zero_sub, ih]
    simp

theorem truncLoop_bool :
    ∀ (resps : List Piece) (truncated : Piece) (pos : Nat),
      (truncLoop resps truncated pos).2 =
        strictlyInside resps (truncated.length - pos) := by
  intro resps
  induction resps with
  | nil =>
    intro t pos
    simp [truncLoop, strictlyInside]
  | cons r rest ih =>
    intro t pos
    simp only [truncLoop]
    split
    · next hle =>
      have : t.length - pos = 0 := by omega
      rw [this, strictlyInside_zero]
    · next hlt =>
      push_neg at hlt
      simp only [strictlyInside, ih]
      have hchunklen : ((t.drop pos).take r.length).length =
          min r.length (t.length - pos) := by
        simp [List.length_take, List.length_drop]
      rw [hchunklen]
      have hsub : t.length - (pos + r.length) = (t.length - pos) - r.length := by
        omega
      rw [hsub]
      congr 1
      have h0 : (0 < t.length - pos) = True := by
        simp
        omega
      by_cases hr : t.length - pos < r.length
      · have : min r.length (t.length - pos) = t.length - pos := by omega
        rw [this]
        simp [hr]
        omega
      · have : min r.length (t.length - pos) = r.length := by omega
        rw [this]
        simp
        omega

end Common

/-- C9: `TruncateStop` as the claim states it, settled in two parts.  This
theorem is the amended claim: when the stop does not occur the input is
returned unchanged with `false`; when it first occurs at `idx`, the returned
pieces concatenate to the prefix strictly before the occurrence, an empty
prefix yields `([], true)`, and the boolean equals "the prefix is empty, or
the occurrence begins strictly inside one of the pieces (cutting a returned
piece mid-piece)".  The unamended biconditional (`true` exactly when a
returned piece was cut) is refuted by `C9_counterexample`. -/
theorem C9_truncate_stop_characterization :
    ∀ (resps : List Common.Piece) (stop : Common.Piece),
      (Common.firstIdx stop (Common.concatContents resps) = none →
        Common.TruncateStop resps stop = (resps, false)) ∧
      (∀ idx, Common.firstIdx stop (Common.concatContents resps) = some idx →
        Common.concatContents (Common.TruncateStop resps stop).1 =
          (Common.concatContents resps).take idx ∧
        (idx = 0 → Common.TruncateStop resps stop = ([], true)) ∧
        (Common.TruncateStop resps stop).2 =
          (decide (idx = 0) || Common.strictlyInside resps idx)) := by
  intro resps stop
  constructor
  · intro hnone
    simp only [Common.TruncateStop, hnone]
  · intro idx hsome
    have hle := Common.firstIdx_le_length hsome
    have hlen : ((Common.concatContents resps).take idx).length = idx := by
      simp only [List.length_take]
      omega
    by_cases h0 : idx = 0
    · subst h0
      simp only [Common.TruncateStop, hsome, hlen]
      refine ⟨by simp [Common.concatContents], fun _ => by simp, by simp⟩
    · have hne : (((Common.concatContents resps).take idx).length = 0) = False := by
        simp only [hlen]
        simp [h0]
      simp only [Common.TruncateStop, hsome, hne, if_false]
      refine ⟨?_, fun hcon => absurd hcon h0, ?_⟩
      · rw [Common.truncLoop_concat resps _ 0 (by rw [hlen]; omega)]
        simp
      · rw [Common.truncLoop_bool]
        rw [hlen]
        simp [h0]

/-- C9 witness: the theorem applied at the concrete input
pieces `["Hello", " wor"]` with stop `"or"`, whose first occurrence is at
index 7, strictly inside the second piece. -/
theorem C9_witness :
    Common.concatContents
        (Common.TruncateStop [['H','e','l','l','o'], [' ','w','o','r']] ['o','r']).1 =
      (Common.concatContents [['H','e','l','l','o'], [' ','w','o','r']]).take 7 ∧
    (Common.TruncateStop [['H','e','l','l','o'], [' ','w','o','r']] ['o','r']).2 =
      (decide ((7 : Nat) = 0) ||
        Common.strictlyInside [['H','e','l','l','o'], [' ','w','o','r']] 7) := by
  have h := (C9_truncate_stop_characterization
    [['H','e','l','l','o'], [' ','w','o','r']] ['o','r']).2 7 (by decide)
  exact ⟨h.1, h.2.2⟩

/-- C9 counterexample to the claim as stated: with the single piece `"ab"`
and stop `"ab"`, the stop occurs at index 0, `TruncateStop` returns
`([], true)`, yet no returned piece was cut mid-piece (nothing is returned
at all), so "true exactly when some returned piece was cut" fails. -/
theorem C9_counterexample :
    (Common.TruncateStop [['a','b']] ['a','b']).2 = true ∧
    ¬ Common.someReturnedPieceCut
        (Common.TruncateStop [['a','b']] ['a','b']).1 [['a','b']] := by
  decide

namespace Common

theorem testBit6_of_land {c m r : Nat} (h : c &&& m = r) :
    (c.testBit 6 && m.testBit 6) = r.testBit 6 := by
  have := congrArg (fun n => n.testBit 6) h
  simpa [Nat.testBit_land] using this

theorem cont_not_lead {c : Nat} (h : isCont c = true) : leadSize c = none := by
  have hb : c &&& 0xc0 = 0x80 := by simpa [isCont] using h
  have h6 : c.testBit 6 = false := by
    have h1 := testBit6_of_land hb
    have e1 : Nat.testBit 0xc0 6 = true := by decide
    have e2 : Nat.testBit 0x80 6 = false := by decide
    rw [e1, e2, Bool.and_true] at h1
    exact h1
  have m2 : (c &&& 0xe0 == 0xc0) = false := by
    apply beq_eq_false_iff_ne.mpr
    intro hm
    have h1 := testBit6_of_land hm
    have e1 : Nat.testBit 0xe0 6 = true := by decide
    have e2 : Nat.testBit 0xc0 6 = true := by decide
    rw [h6, e1, e2, Bool.false_and] at h1
    exact Bool.noConfusion h1
  have m3 : (c &&& 0xf0 == 0xe0) = false := by
    apply beq_eq_false_iff_ne.mpr
    intro hm
    have h1 := testBit6_of_land hm
    have e1 : Nat.testBit 0xf0 6 = true := by decide
    have e2 : Nat.testBit 0xe0 6 = true := by decide
    rw [h6, e1, e2, Bool.false_and] at h1
    exact Bool.noConfusion h1
  have m4 : (c &&& 0xf8 == 0xf0) = false := by
    apply beq_eq_false_iff_ne.mpr
    intro hm
    have h1 := testBit6_of_land hm
    have e1 : Nat.testBit 0xf8 6 = true := by decide
    have e2 : Nat.testBit 0xf0 6 = true := by decide
    rw [h6, e1, e2, Bool.false_and] at h1
    exact Bool.noConfusion h1
  simp [leadSize, m2, m3, m4]

theorem leadSize_le_four {c n : Nat} (h : leadSize c = some n) : n ≤ 4 := by
  unfold leadSize at h
  split at h
  · simp only [Option.some.injEq] at h
    omega
  · split at h
    · simp only [Option.some.injEq] at h
      omega
    · split at h
      · simp only [Option.some.injEq] at h
        omega
      · exact absurd h (by simp)

theorem incompleteLoop_iff :
    ∀ (rev : List Nat) (i : Nat),
      incompleteLoop rev i = true ↔
        ∃ k c n, ((rev.take k).all isCont = true) ∧ rev.get? k = some c ∧
          leadSize c = some n ∧ k + i < n := by
  intro rev
  induction rev with
  | nil =>
    intro i
    simp only [incompleteLoop]
    constructor
    · intro h
      exact absurd h (by simp)
    · rintro ⟨k, c, n, _, hget, _, _⟩
      exact absurd hget (by simp)
  | cons c0 rest ih =>
    intro i
    by_cases h5 : 5 ≤ i
    · simp only [incompleteLoop, if_pos h5]
      constructor
      · intro h
        exact absurd h (by simp)
      · rintro ⟨k, c, n, _, _, hlead, hbound⟩
        have := leadSize_le_four hlead
        omega
    · by_cases hc : isCont c0 = true
      · have hstep : incompleteLoop (c0 :: rest) i = incompleteLoop rest (i + 1) := by
          simp [incompleteLoop, h5, hc]
        rw [hstep, ih (i + 1)]
        constructor
        · rintro ⟨k, c, n, hall, hget, hlead, hbound⟩
          refine ⟨k + 1, c, n, ?_, by simpa using hget, hlead, by omega⟩
          simpa [List.all_cons, hc] using hall
        · rintro ⟨k, c, n, hall, hget, hlead, hbound⟩
          match k with
          | 0 =>
            simp only [List.get?] at hget
            injection hget with hget
            subst hget
            rw [cont_not_lead hc] at hlead
            exact absurd hlead (by simp)
          | k' + 1 =>
            refine ⟨k', c, n, ?_, by simpa using hget, hlead, by omega⟩
            simpa [List.all_cons, hc] using hall
      · have hcfalse : isCont c0 = false := by
          simpa using hc
        by_cases hm2 : (c0 &&& 0xe0 == 0xc0) = true
        · have hlead0 : leadSize c0 = some 2 := by simp [leadSize, hm2]
          have hstep : incompleteLoop (c0 :: rest) i = decide (i < 2) := by
            simp [incompleteLoop, h5, hcfalse, hm2]
          rw [hstep]
          constructor
          · intro h
            exact ⟨0, c0, 2, by simp, by simp, hlead0, by simpa using h⟩
          · rintro ⟨k, c, n, hall, hget, hlead, hbound⟩
            match k with
            | 0 =>
              simp only [List.get?] at hget
              injection hget with hget
              subst hget
              rw [hlead0] at hlead
              injection hlead with hlead
              subst hlead
              simpa using hbound
            | k' + 1 =>
              rw [List.take_succ_cons, List.all_cons, hcfalse, Bool.false_and] at hall
              exact absurd hall (by simp)
        · by_cases hm3 : (c0 &&& 0xf0 == 0xe0) = true
          · have hlead0 : leadSize c0 = some 3 := by
              simp only [leadSize, hm2, hm3]
              simp
            have hstep : incompleteLoop (c0 :: rest) i = decide (i < 3) := by
              simp [incompleteLoop, h5, hcfalse, hm2, hm3]
            rw [hstep]
            constructor
            · intro h
              exact ⟨0, c0, 3, by simp, by simp, hlead0, by simpa using h⟩
            · rintro ⟨k, c, n, hall, hget, hlead, hbound⟩
              match k with
              | 0 =>
                simp only [List.get?] at hget
                injection hget with hget
                subst hget
                rw [hlead0] at hlead
                injection hlead with hlead
                subst hlead
                simpa using hbound
              | k' + 1 =>
                rw [List.take_succ_cons, List.all_cons, hcfalse, Bool.false_and] at hall
                exact absurd hall (by simp)
          · by_cases hm4 : (c0 &&& 0xf8 == 0xf0) = true
            · have hlead0 : leadSize c0 = some 4 := by
                simp only [leadSize, hm2, hm3, hm4]
                simp
              have hstep : incompleteLoop (c0 :: rest) i = decide (i < 4) := by
                simp [incompleteLoop, h5, hcfalse, hm2, hm3, hm4]
              rw [hstep]
              constructor
              · intro h
                exact ⟨0, c0, 4, by simp, by simp, hlead0, by simpa using h⟩
              · rintro ⟨k, c, n, hall, hget, hlead, hbound⟩
                match k with
                | 0 =>
                  simp only [List.get?] at hget
                  injection hget with hget
                  subst hget
                  rw [hlead0] at hlead
                  injection hlead with hlead
                  subst hlead
                  simpa using hbound
                | k' + 1 =>
                  rw [List.take_succ_cons, List.all_cons, hcfalse, Bool.false_and] at hall
                  exact absurd hall (by simp)
            · have hlead0 : leadSize c0 = none := by
                simp only [leadSize, hm2, hm3, hm4]
                simp
              have hstep : incompleteLoop (c0 :: rest) i = false := by
                simp [incompleteLoop, h5, hcfalse, hm2, hm3, hm4]
              rw [hstep]
              constructor
              · intro h
                exact absurd h (by simp)
              · rintro ⟨k, c, n, hall, hget, hlead, hbound⟩
                match k with
                | 0 =>
                  simp only [List.get?] at hget
                  injection hget with hget
                  subst hget
                  rw [hlead0] at hlead
                  exact absurd hlead (by simp)
                | k' + 1 =>
                  rw [List.take_succ_cons, List.all_cons, hcfalse, Bool.false_and] at hall
                  exact absurd hall (by simp)

end Common

/-- C10: `IncompleteUnicode` returns true exactly when the token ends with a
proper, non-empty prefix of a multi-byte UTF-8 sequence — reading backwards,
`k` continuation bytes preceded by an `n`-byte leader requiring more than `k`
continuation bytes; in particular it is false whenever the token ends with a
complete UTF-8 character, and the decision depends only on the last 4
bytes. -/
theorem C10_incomplete_unicode_iff :
    ∀ (token : List Nat),
      Common.IncompleteUnicode token = true ↔ Common.endsWithPartialSeq token := by
  intro token
  unfold Common.IncompleteUnicode Common.endsWithPartialSeq
  rw [Common.incompleteLoop_iff]

/-- C10 witness: the theorem applied at the lone 2-byte leader `0xc2`, which
`IncompleteUnicode` flags as incomplete, yielding the partial-sequence
decomposition. -/
theorem C10_witness : Common.endsWithPartialSeq [0x68, 0x69, 0xc2] :=
  (C10_incomplete_unicode_iff [0x68, 0x69, 0xc2]).mp (by decide)

/-- C1: refuted on the code — `Model.Shift` does NOT pass the same rotary
dimension count and type flag as the live encoder.  The source passes
`uint32(0)` in the dimension-count slot and `m.ropeDim` in the type-flag
slot (stop.go line 227), while `SelfAttention.Forward` passes
`opts.ropeDim` and `0` (lines 203/208); base and scale do agree.  The
theorem evaluates both call sites: whenever `ropeDim ≠ 0` the
(dimension-count, type-flag) pairs differ. -/
theorem C1_shift_swaps_rope_arguments :
    ∀ (m : Llama.Model) (layer : Nat) (key shiftT : Llama.Tensor),
      (∃ t, Llama.Model.Shift m layer key shiftT = Except.ok t ∧
        t.ropeArgs = some (0, m.opts.ropeDim)) ∧
      (∀ (sa : Llama.SelfAttention) (hs pos : Llama.Tensor)
          (cache : Llama.CacheState),
        ((Llama.SelfAttention.Forward sa hs pos cache m.opts).1.linearArg.reshapeBase.attnQ).map
            Llama.Tensor.ropeArgs =
          some (some (m.opts.ropeDim, 0))) ∧
      (m.opts.ropeDim ≠ 0 →
        ((0 : Nat), m.opts.ropeDim) ≠ (m.opts.ropeDim, (0 : Nat))) := by
  intro m layer key shiftT
  refine ⟨⟨_, rfl, rfl⟩, fun sa hs pos cache => rfl, fun h heq => ?_⟩
  have := congrArg Prod.fst heq
  exact h this.symm

/-- C1 witness: the theorem applied at a concrete model whose rotary
dimension count is 32: the shifted key is re-encoded with
(dimension-count 0, type-flag 32), the live encoder uses (32, 0), and the
two argument pairs differ. -/
theorem C1_witness :
    (∃ t, Llama.Model.Shift
        ⟨Llama.Tensor.nilTensor, [], Llama.Tensor.nilTensor, Llama.Tensor.nilTensor,
          ⟨64, 8, 8, 0, 1, 10000, 1, 32⟩, Llama.CacheConfig.uninit⟩
        0 Llama.Tensor.nilTensor Llama.Tensor.nilTensor = Except.ok t ∧
      t.ropeArgs = some (0, 32)) ∧
    (((0 : Nat), (32 : Nat)) ≠ ((32 : Nat), (0 : Nat))) := by
  refine ⟨(C1_shift_swaps_rope_arguments
    ⟨Llama.Tensor.nilTensor, [], Llama.Tensor.nilTensor, Llama.Tensor.nilTensor,
      ⟨64, 8, 8, 0, 1, 10000, 1, 32⟩, Llama.CacheConfig.uninit⟩
    0 Llama.Tensor.nilTensor Llama.Tensor.nilTensor).1,
    (C1_shift_swaps_rope_arguments
      ⟨Llama.Tensor.nilTensor, [], Llama.Tensor.nilTensor, Llama.Tensor.nilTensor,
        ⟨64, 8, 8, 0, 1, 10000, 1, 32⟩, Llama.CacheConfig.uninit⟩
      0 Llama.Tensor.nilTensor Llama.Tensor.nilTensor).2.2 (by decide)⟩

/-- C2 counterexample: a configuration with the supported tokenizer family
but `headCount = 3`, `headCountKV = 2` (not divisible) for which `New`
succeeds — construction does not fail as the claim states. -/
theorem C2_counterexample :
    (Llama.New ⟨"gpt2", 2, 32, 3, 2, 0, 1, 10000, 1, 16⟩).isOk = true ∧
    Llama.Config.headCount ⟨"gpt2", 2, 32, 3, 2, 0, 1, 10000, 1, 16⟩ %
        Llama.Config.headCountKV ⟨"gpt2", 2, 32, 3, 2, 0, 1, 10000, 1, 16⟩ ≠ 0 := by
  decide

/-- C2 amended: `New` performs no divisibility validation at all — for every
configuration whose tokenizer family passes the (case-insensitive) `gpt2`
check, construction succeeds even when `numHeads % numKVHeads ≠ 0`. -/
theorem C2_no_head_divisibility_check :
    ∀ (c : Llama.Config),
      c.headCount % c.headCountKV ≠ 0 →
      Llama.asciiEqualFold c.tokenizerModel "gpt2" = true →
      (Llama.New c).isOk = true := by
  intro c _ htok
  simp [Llama.New, htok, Except.isOk, Except.toBool]

/-- C2 witness: the amended theorem applied at a concrete config with
heads 5, kv-heads 3 and tokenizer spelled `GPT2` (exercising the fold). -/
theorem C2_witness :
    (Llama.New ⟨"GPT2", 1, 8, 5, 3, 0, 1, 500000, 1, 8⟩).isOk = true :=
  C2_no_head_divisibility_check ⟨"GPT2", 1, 8, 5, 3, 0, 1, 500000, 1, 8⟩
    (by decide) (by decide)

/-- C3: the layer loop of `Model.Forward` hands a non-nil outputs tensor to
`Layer.Forward` exactly at the final index (`lastLayerOutputs i n` is `some`
iff `i = n - 1`, and then it is the outputs tensor itself); and
`Layer.Forward` with non-nil outputs row-gathers BOTH the post-attention
hidden state and the residual before the residual add and before the
feed-forward stage, while with nil outputs no gather occurs. -/
theorem C3_output_pruning_last_layer_only :
    (∀ (i n : Nat) (o : Llama.Tensor), 0 < n →
      ((Llama.lastLayerOutputs i n o).isSome = true ↔ i = n - 1)) ∧
    (∀ (i n : Nat) (o : Llama.Tensor), Llama.lastLayerOutputs i n o ≠ none →
      Llama.lastLayerOutputs i n o = some o) ∧
    (∀ (l : Llama.Layer) (rest : List Llama.Layer) (n i : Nat)
        (hs pos o : Llama.Tensor) (cache : Llama.CacheState)
        (opts : Llama.Options),
      Llama.forwardLayers (l :: rest) n i hs pos o cache opts =
        Llama.forwardLayers rest n (i + 1)
          (l.Forward hs pos (Llama.lastLayerOutputs i n o) (cache.setLayer i) opts).1
          pos o
          (l.Forward hs pos (Llama.lastLayerOutputs i n o) (cache.setLayer i) opts).2
          opts) ∧
    (∀ (l : Llama.Layer) (hs pos o : Llama.Tensor) (cache : Llama.CacheState)
        (opts : Llama.Options),
      Llama.Layer.Forward l hs pos (some o) cache opts =
        (let r := Llama.SelfAttention.Forward l.selfAttention
            (Llama.Tensor.rmsnorm l.attentionNorm hs opts.eps) pos cache opts
         let h2 := Llama.Tensor.add (Llama.Tensor.rows r.1 o) (Llama.Tensor.rows hs o)
         (Llama.Tensor.add
            (Llama.MLP.Forward l.mlp (Llama.Tensor.rmsnorm l.mlpNorm h2 opts.eps) opts)
            h2,
          r.2))) ∧
    (∀ (l : Llama.Layer) (hs pos : Llama.Tensor) (cache : Llama.CacheState)
        (opts : Llama.Options),
      Llama.Layer.Forward l hs pos none cache opts =
        (let r := Llama.SelfAttention.Forward l.selfAttention
            (Llama.Tensor.rmsnorm l.attentionNorm hs opts.eps) pos cache opts
         let h2 := Llama.Tensor.add r.1 hs
         (Llama.Tensor.add
            (Llama.MLP.Forward l.mlp (Llama.Tensor.rmsnorm l.mlpNorm h2 opts.eps) opts)
            h2,
          r.2))) := by
  refine ⟨?_, ?_, fun _ _ _ _ _ _ _ _ _ => rfl, fun _ _ _ _ _ _ => rfl,
    fun _ _ _ _ _ => rfl⟩
  · intro i n o _
    unfold Llama.lastLayerOutputs
    split <;> simp_all
  · intro i n o h
    unfold Llama.lastLayerOutputs at *
    split at h <;> simp_all

/-- C3 witness: the theorem applied with three layers: index 2 is the only
one receiving a non-nil outputs tensor. -/
theorem C3_witness :
    (Llama.lastLayerOutputs 2 3 Llama.Tensor.nilTensor).isSome = true ∧
    Llama.lastLayerOutputs 2 3 Llama.Tensor.nilTensor =
      some Llama.Tensor.nilTensor := by
  refine ⟨(C3_output_pruning_last_layer_only.1 2 3 Llama.Tensor.nilTensor
    (by decide)).mpr (by decide),
    C3_output_pruning_last_layer_only.2.1 2 3 Llama.Tensor.nilTensor (by decide)⟩

/-- C4: `SelfAttention.Forward` performs exactly the claimed pipeline:
Q/K/V projections; reshape of Q to (headDim, numHeads, batch) and of K, V to
(headDim, numKVHeads, batch); rotary encoding with type flag 0 applied to Q
and K only (V carries no rope node); K, V handed with Q to the cache-backed
attention primitive at scale `1/sqrt(headDim)` (which appends K, V to the
cache); reshape to (headDim*numHeads, batch); output projection. -/
theorem C4_self_attention_pipeline :
    ∀ (sa : Llama.SelfAttention) (hs pos : Llama.Tensor)
      (cache : Llama.CacheState) (opts : Llama.Options),
      Llama.SelfAttention.Forward sa hs pos cache opts =
        (Llama.Tensor.linear sa.output
          (Llama.Tensor.reshape
            (Llama.Tensor.attention
              (Llama.Tensor.rope
                (Llama.Tensor.reshape (Llama.Tensor.linear sa.query hs)
                  [Llama.effHeadDim opts, opts.numHeads, hs.dim 1])
                pos sa.ropeFactors opts.ropeDim 0 opts.ropeBase opts.ropeScale)
              (Llama.Tensor.rope
                (Llama.Tensor.reshape (Llama.Tensor.linear sa.key hs)
                  [Llama.effHeadDim opts, opts.numKVHeads, hs.dim 1])
                pos sa.ropeFactors opts.ropeDim 0 opts.ropeBase opts.ropeScale)
              (Llama.Tensor.reshape (Llama.Tensor.linear sa.value hs)
                [Llama.effHeadDim opts, opts.numKVHeads, hs.dim 1])
              (Llama.Scale.invSqrt (Llama.effHeadDim opts)))
            [Llama.effHeadDim opts * opts.numHeads, hs.dim 1]),
         cache.put
           (Llama.Tensor.rope
             (Llama.Tensor.reshape (Llama.Tensor.linear sa.key hs)
               [Llama.effHeadDim opts, opts.numKVHeads, hs.dim 1])
             pos sa.ropeFactors opts.ropeDim 0 opts.ropeBase opts.ropeScale)
           (Llama.Tensor.reshape (Llama.Tensor.linear sa.value hs)
             [Llama.effHeadDim opts, opts.numKVHeads, hs.dim 1])) := by
  intro sa hs pos cache opts
  rfl

/-- C5: `MLP.Forward` computes `down( silu(gate(x)) ⊙ up(x) )`; it is a pure
function of its input and the three weights (its Lean embedding neither
receives nor returns a cache, matching the source signature). -/
theorem C5_mlp_gated_linear_unit :
    ∀ (mlp : Llama.MLP) (hs : Llama.Tensor) (opts : Llama.Options),
      Llama.MLP.Forward mlp hs opts =
        Llama.Tensor.linear mlp.down
          (Llama.Tensor.mul (Llama.Tensor.silu (Llama.Tensor.linear mlp.gate hs))
            (Llama.Tensor.linear mlp.up hs)) := by
  intro mlp hs opts
  rfl

/-- C6: the head dimension used throughout `SelfAttention.Forward` is the
explicit configured `headDim` when non-zero, and `hiddenSize / numHeads`
when it is zero; the attention scale is `invSqrt` of that value and the
query reshape uses it as leading dimension. -/
theorem C6_head_dim_selection :
    ∀ (opts : Llama.Options),
      (opts.headDim ≠ 0 → Llama.effHeadDim opts = opts.headDim) ∧
      (opts.headDim = 0 →
        Llama.effHeadDim opts = opts.hiddenSize / opts.numHeads) ∧
      (∀ (sa : Llama.SelfAttention) (hs pos : Llama.Tensor)
          (cache : Llama.CacheState),
        ((Llama.SelfAttention.Forward sa hs pos cache opts).1.linearArg.reshapeBase.attnScale =
            some (Llama.Scale.invSqrt (Llama.effHeadDim opts))) ∧
        ((Llama.SelfAttention.Forward sa hs pos cache opts).1.linearArg.reshapeDims =
            [Llama.effHeadDim opts * opts.numHeads, hs.dim 1]) ∧
        (((Llama.SelfAttention.Forward sa hs pos cache opts).1.linearArg.reshapeBase.attnQ).map
            (fun q => q.ropeInput.reshapeDims) =
          some [Llama.effHeadDim opts, opts.numHeads, hs.dim 1])) := by
  intro opts
  refine ⟨fun h => ?_, fun h => ?_, fun sa hs pos cache => ⟨rfl, rfl, rfl⟩⟩
  · simp [Llama.effHeadDim, h]
  · simp [Llama.effHeadDim, h]

/-- C6 witness: the theorem applied at a config with explicit head
dimension 5 (kept) and at one with head dimension 0 (derived as 32/8). -/
theorem C6_witness :
    Llama.effHeadDim ⟨64, 8, 8, 5, 1, 10000, 1, 32⟩ = 5 ∧
    Llama.effHeadDim ⟨32, 8, 4, 0, 1, 10000, 1, 16⟩ = 4 := by
  refine ⟨(C6_head_dim_selection ⟨64, 8, 8, 5, 1, 10000, 1, 32⟩).1 (by decide), ?_⟩
  have h := (C6_head_dim_selection ⟨32, 8, 4, 0, 1, 10000, 1, 16⟩).2.1 rfl
  simpa using h

/-- C7: `New` returns a model exactly when the configured tokenizer family is
(case-insensitively) the supported `gpt2`; otherwise it errors; and every
successfully constructed model has its cache initialised as a causal cache
wired to the model's own `Shift` callback. -/
theorem C7_new_tokenizer_gate_and_cache_wiring :
    ∀ (c : Llama.Config),
      (Llama.New c).isOk = Llama.asciiEqualFold c.tokenizerModel "gpt2" ∧
      (Llama.New c).toOption.map Llama.Model.cache =
        (if Llama.asciiEqualFold c.tokenizerModel "gpt2" = true
         then some Llama.CacheConfig.causalWithModelShift else none) := by
  intro c
  by_cases h : Llama.asciiEqualFold c.tokenizerModel "gpt2" = true
  · simp [Llama.New, h, Except.isOk, Except.toBool, Except.toOption]
  · have h' : Llama.asciiEqualFold c.tokenizerModel "gpt2" = false := by
      simpa using h
    simp [Llama.New, h', Except.isOk, Except.toBool, Except.toOption]

/-- C8: any failure converting the inputs, positions or outputs integer
sequences aborts `Model.Forward` with that error before the embedding lookup
and before any layer or cache operation: the error is returned as-is and the
cache state is exactly the one passed in. -/
theorem C8_forward_conversion_errors_propagate :
    ∀ (m : Llama.Model)
      (convIn convOut : List Int → Nat → Except String Llama.Tensor)
      (fopts : Llama.ForwardOptions) (cache : Llama.CacheState) (e : String),
      (convIn fopts.inputs fopts.inputs.length = Except.error e →
        Llama.Model.Forward m convIn convOut fopts cache =
          (Except.error e, cache)) ∧
      (∀ tIn, convIn fopts.inputs fopts.inputs.length = Except.ok tIn →
        convIn fopts.positions fopts.positions.length = Except.error e →
        Llama.Model.Forward m convIn convOut fopts cache =
          (Except.error e, cache)) ∧
      (∀ tIn tPos, convIn fopts.inputs fopts.inputs.length = Except.ok tIn →
        convIn fopts.positions fopts.positions.length = Except.ok tPos →
        convOut fopts.outputs fopts.outputs.length = Except.error e →
        Llama.Model.Forward m convIn convOut fopts cache =
          (Except.error e, cache)) := by
  intro m convIn convOut fopts cache e
  refine ⟨fun h => ?_, fun tIn h1 h2 => ?_, fun tIn tPos h1 h2 h3 => ?_⟩
  · simp [Llama.Model.Forward, h]
  · simp [Llama.Model.Forward, h1, h2]
  · simp [Llama.Model.Forward, h1, h2, h3]

/-- C8 witness: the theorem applied with a conversion that fails on the
inputs sequence: the forward call returns exactly that error and the empty
cache log is untouched. -/
theorem C8_witness :
    Llama.Model.Forward
        ⟨Llama.Tensor.nilTensor, [], Llama.Tensor.nilTensor, Llama.Tensor.nilTensor,
          ⟨8, 2, 1, 4, 1, 10000, 1, 4⟩, Llama.CacheConfig.uninit⟩
        (fun _ _ => Except.error "boom") (fun _ _ => Except.error "boom")
        ⟨[1], [0], [0]⟩ ⟨[]⟩ =
      (Except.error "boom", ⟨[]⟩) :=
  (C8_forward_conversion_errors_propagate
    ⟨Llama.Tensor.nilTensor, [], Llama.Tensor.nilTensor, Llama.Tensor.nilTensor,
      ⟨8, 2, 1, 4, 1, 10000, 1, 4⟩, Llama.CacheConfig.uninit⟩
    (fun _ _ => Except.error "boom") (fun _ _ => Except.error "boom")
    ⟨[1], [0], [0]⟩ ⟨[]⟩ "boom").1 rfl
